import Mathlib

/-!
Shallow embedding of the timepro time-tracking application.

The embedding follows the TypeScript source:
  * `src/app/page.tsx`        — application state, timer controller, project registry
  * `Timer` component         — staged-entry duration edit (`handleEditTime`)
  * `TimeEntryHistory`        — filtering, totals, pagination, history edit
  * `PerformanceCharts`       — daily / per-project / weekly aggregation

Modelling conventions:
  * JS timestamps (ISO strings / `Date.now()`) are epoch milliseconds (`Int`).
  * JS numbers that can only be integers here are `Int`; fractional "hours"
    values are `ℚ` (the arithmetic performed — sums of `x / 3600` — is exact
    for the magnitudes involved, so `ℚ` is a faithful model of the intent of
    the float arithmetic).
  * A possibly-NaN JS number is `Option Int` (`none` = NaN).
  * The optional `editedDuration` field is `Option (Option Int)`:
    `none` = property absent, `some none` = present but NaN,
    `some (some v)` = present with numeric value `v`.
  * JS string comparison (`<=` on UTF-16 code units) is modelled by `strLe`
    on the code-point list; the strings compared here are ASCII dates, where
    the two coincide.
-/

namespace Timepro

/-! ## JavaScript primitives -/

/-- Lexicographic comparison of character lists by code point; models JS
string `<=` (UTF-16 code-unit order) on the ASCII strings used here. -/
def charListLe : List Char → List Char → Bool
  | [], _ => true
  | _ :: _, [] => false
  | a :: as, b :: bs =>
    if a.toNat < b.toNat then true
    else if b.toNat < a.toNat then false
    else charListLe as bs

/-- JS string `a <= b`. -/
def strLe (a b : String) : Bool := charListLe a.data b.data

/-- Insertion of `x` in front of the first element it compares `le` to;
coming from later in the source order, `x` passes every earlier element it
ties with. -/
def stableInsert {α : Type} (le : α → α → Bool) (x : α) : List α → List α
  | [] => [x]
  | y :: ys => if le x y then x :: y :: ys else y :: stableInsert le x ys

/-- Stable sort by the boolean comparator `le`; models JS
`Array.prototype.sort` with a consistent comparator, which is specified to be
stable (for a total preorder the stable sorted order is unique, so any stable
algorithm is a faithful model). -/
def stableSort {α : Type} (le : α → α → Bool) : List α → List α
  | [] => []
  | x :: xs => stableInsert le x (stableSort le xs)

/-- Numeric value of a digit list (most significant first). -/
def digitsToNat (ds : List Char) : Nat :=
  ds.foldl (fun acc c => acc * 10 + (c.toNat - 48)) 0

/-- Leading-whitespace removal, as `parseInt` performs before scanning. -/
def skipSpaces : List Char → List Char
  | c :: cs => if c = ' ' ∨ c = '\t' ∨ c = '\n' ∨ c = '\r' then skipSpaces cs else c :: cs
  | [] => []

/-- JS `parseInt(s)` (radix 10): skip leading whitespace, optional sign, then
the longest run of leading digits; `none` models the NaN result when no digit
is found (e.g. `parseInt("abc")`, `parseInt("")`). -/
def parseIntJS (s : String) : Option Int :=
  let cs := skipSpaces s.data
  let signAndRest : Int × List Char :=
    match cs with
    | '-' :: rest => (-1, rest)
    | '+' :: rest => (1, rest)
    | _ => (1, cs)
  let ds := signAndRest.2.takeWhile (·.isDigit)
  if ds.isEmpty then none else some (signAndRest.1 * (digitsToNat ds : Int))

/-! ## Calendar arithmetic

`new Date("YYYY-MM-DD")` parses to UTC midnight; `toISOString` renders UTC.
The model fixes the environment timezone at UTC offset 0, so `getDate` /
`getDay` agree with the UTC civil date. Conversion between civil dates and
epoch-day numbers uses the standard proleptic-Gregorian algorithm (the same
mapping ECMAScript specifies). All intermediate divisions act on values that
are non-negative for the dates exercised here; `Int.fdiv`/`Int.emod`
(floor convention) are used throughout. -/

/-- Epoch-day number (days since 1970-01-01) of a civil date. -/
def daysFromCivil (y m d : Int) : Int :=
  let yAdj := if m ≤ 2 then y - 1 else y
  let era := Int.fdiv yAdj 400
  let yoe := yAdj - era * 400
  let mp := if 2 < m then m - 3 else m + 9
  let doy := Int.fdiv (153 * mp + 2) 5 + d - 1
  let doe := yoe * 365 + Int.fdiv yoe 4 - Int.fdiv yoe 100 + doy
  era * 146097 + doe - 719468

/-- Civil date `(year, month, day)` of an epoch-day number. -/
def civilFromDays (z : Int) : Int × Int × Int :=
  let z2 := z + 719468
  let era := Int.fdiv z2 146097
  let doe := z2 - era * 146097
  let yoe := Int.fdiv (doe - Int.fdiv doe 1460 + Int.fdiv doe 36524 - Int.fdiv doe 146096) 365
  let y := yoe + era * 400
  let doy := doe - (365 * yoe + Int.fdiv yoe 4 - Int.fdiv yoe 100)
  let mp := Int.fdiv (5 * doy + 2) 153
  let d := doy - Int.fdiv (153 * mp + 2) 5 + 1
  let m := if mp < 10 then mp + 3 else mp - 9
  (if m ≤ 2 then y + 1 else y, m, d)

/-- JS `Date.prototype.getDay`: day of week, Sunday = 0 (1970-01-01 was a
Thursday, day 4). -/
def dayOfWeekJS (days : Int) : Int := (days + 4).emod 7

/-- Decimal rendering of `n` left-padded with zeros to width `w`. -/
def padNat (w : Nat) (n : Nat) : String :=
  let s := toString n
  String.mk (List.replicate (w - s.length) '0' ++ s.data)

/-- Date part of `toISOString` for the given epoch day: `"YYYY-MM-DD"`. -/
def formatEpochDay (z : Int) : String :=
  let c := civilFromDays z
  padNat 4 c.1.toNat ++ "-" ++ padNat 2 c.2.1.toNat ++ "-" ++ padNat 2 c.2.2.toNat

/-- Strict `"YYYY-MM-DD"` parse on a character list (the date-only format
accepted by `new Date` for the strings this application stores). -/
def parseISOChars (cs : List Char) : Option (Int × Int × Int) :=
  let ys := cs.takeWhile (·.isDigit)
  let r1 := cs.drop ys.length
  match r1 with
  | '-' :: r2 =>
    let ms := r2.takeWhile (·.isDigit)
    let r3 := r2.drop ms.length
    match r3 with
    | '-' :: r4 =>
      let ds := r4.takeWhile (·.isDigit)
      let r5 := r4.drop ds.length
      if ys.length = 4 ∧ ms.length = 2 ∧ ds.length = 2 ∧ r5 = [] then
        some ((digitsToNat ys : Int), (digitsToNat ms : Int), (digitsToNat ds : Int))
      else none
    | _ => none
  | _ => none

/-- Epoch-day number of a stored `"YYYY-MM-DD"` date string; `none` models an
Invalid Date. -/
def epochDaysOfDateString (s : String) : Option Int :=
  (parseISOChars s.data).map (fun c => daysFromCivil c.1 c.2.1 c.2.2)

/-! ## Data model (`page.tsx` interfaces) -/

/-- Model of `interface Project` of `page.tsx`. -/
structure Project where
  id : String
  name : String
  color : String
  createdAt : String
  deriving DecidableEq, Repr

/-- Model of `interface TimeEntry` of `page.tsx`. `startTime`/`endTime` ISO timestamps
are epoch milliseconds; `editedDuration` is absent (`none`), NaN (`some none`)
or a number (`some (some v)`). -/
structure TimeEntry where
  id : String
  projectId : String
  projectName : String
  startTime : Int
  endTime : Option Int
  duration : Int
  date : String
  isRunning : Bool
  editedDuration : Option (Option Int)
  deriving DecidableEq, Repr

/-- Model of `entry.editedDuration || entry.duration`: the duration value every
display/aggregation site reads. JS `||` yields the right operand when the
left is absent, NaN, or `0` — all falsy. -/
def effectiveDuration (e : TimeEntry) : Int :=
  match e.editedDuration with
  | some (some v) => if v = 0 then e.duration else v
  | _ => e.duration

/-- Effective duration as a rational, for hour arithmetic. -/
def effQ (e : TimeEntry) : ℚ := (effectiveDuration e : ℚ)

/-- The `Home` component state: `projects`, `timeEntries`, `currentEntry`. -/
structure AppState where
  projects : List Project
  timeEntries : List TimeEntry
  currentEntry : Option TimeEntry
  deriving DecidableEq, Repr

/-- Session state derived from `currentEntry` (spec §4.1): absent = `Idle`,
present-and-running = `Running`, present-and-stopped = `Stopped`. -/
inductive Session where
  | Idle : Session
  | Running : Session
  | Stopped : Session
  deriving DecidableEq, Repr

/-- View of an `AppState` as a session state. -/
def sessionOf (s : AppState) : Session :=
  match s.currentEntry with
  | none => .Idle
  | some e => if e.isRunning then .Running else .Stopped

/-! ## Timer controller and registry (`page.tsx`) -/

/-- Model of `startTimer(projectId)`: no-op when the project does not exist; otherwise
stages a fresh running entry (`id = Date.now().toString()`,
`date = toISOString().split('T')[0]`). `now` is the wall clock in ms. -/
def startTimer (now : Int) (projectId : String) (s : AppState) : AppState :=
  match s.projects.find? (fun p => p.id == projectId) with
  | none => s
  | some project =>
    { s with currentEntry := some {
        id := toString now
        projectId := projectId
        projectName := project.name
        startTime := now
        endTime := none
        duration := 0
        date := formatEpochDay (Int.fdiv now 86400000)
        isRunning := true
        editedDuration := none } }

/-- Model of `stopTimer()`: guard `if (!currentEntry) return`; sets `endTime = now`,
`duration = Math.floor((end - start) / 1000)` (seconds), `isRunning = false`. -/
def stopTimer (now : Int) (s : AppState) : AppState :=
  match s.currentEntry with
  | none => s
  | some e =>
    { s with currentEntry := some { e with
        endTime := some now
        duration := Int.fdiv (now - e.startTime) 1000
        isRunning := false } }

/-- Model of the `Timer.handleSave` guard (`currentEntry && !currentEntry.isRunning`)
composed with `saveEntry(entry)`: appends the staged entry to the durable
store and clears the session. -/
def saveEntry (s : AppState) : AppState :=
  match s.currentEntry with
  | none => s
  | some e =>
    if e.isRunning then s
    else { s with timeEntries := s.timeEntries ++ [e], currentEntry := none }

/-- Model of `updateProject(id, name, color)`: rewrites the matching project record and
propagates the new name to every durable entry whose `projectId` matches. -/
def updateProject (id name color : String) (s : AppState) : AppState :=
  { s with
    projects := s.projects.map (fun p =>
      if p.id == id then { p with name := name, color := color } else p)
    timeEntries := s.timeEntries.map (fun e =>
      if e.projectId == id then { e with projectName := name } else e) }

/-- Model of `deleteProject(id)`: removes matching project records; time entries are
kept (source comment: they will show as a deleted project). -/
def deleteProject (id : String) (s : AppState) : AppState :=
  { s with projects := s.projects.filter (fun p => p.id != id) }

/-! ## History component (`TimeEntryHistory`) -/

/-- Model of `filteredEntries`: filter by project when the selection is not
`"all"`, then by the date strings when non-empty (the empty JS string is
falsy, so an empty bound disables that filter), then stable-sort by date
descending. `Date.parse` on
the stored zero-padded ISO dates is order-isomorphic to string order, and the
JS `sort` comparator `parse(b.date) - parse(a.date)` is a stable descending
sort — modelled by `mergeSort` with `strLe b.date a.date`. -/
def filteredEntries (entries : List TimeEntry)
    (filterProject filterDateFrom filterDateTo : String) : List TimeEntry :=
  let f1 := if filterProject ≠ "all"
    then entries.filter (fun e => e.projectId == filterProject) else entries
  let f2 := if filterDateFrom ≠ ""
    then f1.filter (fun e => strLe filterDateFrom e.date) else f1
  let f3 := if filterDateTo ≠ ""
    then f2.filter (fun e => strLe e.date filterDateTo) else f2
  stableSort (fun a b => strLe b.date a.date) f3

/-- Model of `totalHours` of the history view: reduce over the filtered list summing
`editedDuration || duration`, then divide by 3600. -/
def totalHoursHistory (filtered : List TimeEntry) : ℚ :=
  let totalSeconds : Int := filtered.foldl (fun total e => total + effectiveDuration e) 0
  (totalSeconds : ℚ) / 3600

/-- Model of `paginatedEntries`: `filtered.slice((page-1)*10, page*10)` with
`itemsPerPage = 10`. -/
def paginatedEntries (currentPage : Nat) (filtered : List TimeEntry) : List TimeEntry :=
  let start := (currentPage - 1) * 10
  (filtered.drop start).take 10

/-- Model of `totalPages = Math.ceil(filteredEntries.length / itemsPerPage)`. -/
def totalPages (filtered : List TimeEntry) : Nat :=
  (filtered.length + 10 - 1) / 10

/-- Model of `parseInt(editHours)*3600 + parseInt(editMinutes)*60 + parseInt(editSeconds)`
as computed by both `Timer.handleEditTime` and
`TimeEntryHistory.handleUpdateEntry`; NaN (`none`) from any `parseInt`
propagates through the arithmetic. -/
def computeEditedDuration (editHours editMinutes editSeconds : String) : Option Int :=
  match parseIntJS editHours, parseIntJS editMinutes, parseIntJS editSeconds with
  | some h, some m, some s => some (h * 3600 + m * 60 + s)
  | _, _, _ => none

/-- Model of `Timer.handleEditTime`: stores the computed total on the staged entry. -/
def handleEditTime (editHours editMinutes editSeconds : String) (s : AppState) : AppState :=
  match s.currentEntry with
  | none => s
  | some e =>
    { s with currentEntry := some { e with
        editedDuration := some (computeEditedDuration editHours editMinutes editSeconds) } }

/-- Model of `TimeEntryHistory.handleUpdateEntry` composed with `updateTimeEntry`:
stores the computed total on the matching durable entry. -/
def handleUpdateEntry (id : String) (editHours editMinutes editSeconds : String)
    (entries : List TimeEntry) : List TimeEntry :=
  entries.map (fun e =>
    if e.id == id
    then { e with editedDuration := some (computeEditedDuration editHours editMinutes editSeconds) }
    else e)

/-! ## Charts component (`PerformanceCharts`)

The chart builders accumulate into a JS object keyed by strings; the model is
an association list in insertion order (`Object.entries`/`Object.values` on
non-integer string keys iterate in insertion order). -/

/-- Update of the association `k` in an object-as-list: applies `f` to the
stored value, first installing `dflt` when the key is absent (modelling the
source pattern of installing a default record before the mutation). -/
def updAssoc {β : Type} (k : String) (dflt : β) (f : β → β) :
    List (String × β) → List (String × β)
  | [] => [(k, f dflt)]
  | (k', v) :: rest =>
    if k' == k then (k', f v) :: rest else (k', v) :: updAssoc k dflt f rest

/-- Key lookup in an object-as-list. -/
def lookupA {β : Type} (k : String) : List (String × β) → Option β
  | [] => none
  | (k', v) :: rest => if k' == k then some v else lookupA k rest

/-- One `data[date]` record of `dailyData`: total hours plus the dynamic
per-project-name hour keys. -/
structure DayRec where
  date : String
  hours : ℚ
  perProject : List (String × ℚ)
  deriving DecidableEq, Repr

/-- One iteration of the `dailyData` `forEach`. -/
def dailyStep (acc : List (String × DayRec)) (e : TimeEntry) : List (String × DayRec) :=
  let hours := effQ e / 3600
  updAssoc e.date { date := e.date, hours := 0, perProject := [] }
    (fun r => { r with
        hours := r.hours + hours
        perProject := updAssoc e.projectName 0 (· + hours) r.perProject }) acc

/-- The `dailyData` accumulation object, before `Object.values`/sort/slice. -/
def dailyMap (entries : List TimeEntry) : List (String × DayRec) :=
  entries.foldl dailyStep []

/-- Model of `dailyData`: values of the map, sorted ascending by date, last 30. -/
def dailyData (entries : List TimeEntry) : List DayRec :=
  let vals := (dailyMap entries).map Prod.snd
  let sorted := stableSort (fun a b => strLe a.date b.date) vals
  sorted.drop (sorted.length - 30)

/-- One `data[projectName]` record of `projectData`. -/
structure ProjRec where
  name : String
  hours : ℚ
  color : String
  entries : Nat
  deriving DecidableEq, Repr

/-- One iteration of the `projectData` `forEach`; the color is resolved from
the live project list only when the record is created
(`project?.color` with the gray fallback). -/
def projectStep (projects : List Project) (acc : List (String × ProjRec))
    (e : TimeEntry) : List (String × ProjRec) :=
  let hours := effQ e / 3600
  let color := match projects.find? (fun p => p.id == e.projectId) with
    | some p => if p.color = "" then "#6B7280" else p.color
    | none => "#6B7280"
  updAssoc e.projectName { name := e.projectName, hours := 0, color := color, entries := 0 }
    (fun r => { r with hours := r.hours + hours, entries := r.entries + 1 }) acc

/-- The `projectData` accumulation object. -/
def projectMap (projects : List Project) (entries : List TimeEntry) :
    List (String × ProjRec) :=
  entries.foldl (projectStep projects) []

/-- Model of `projectData`: values sorted descending by hours (stable). -/
def projectData (projects : List Project) (entries : List TimeEntry) : List ProjRec :=
  stableSort (fun a b => decide (b.hours ≤ a.hours))
    ((projectMap projects entries).map Prod.snd)

/-- Sunday-starting week bucket of a stored date:
`startOfWeek.setDate(date.getDate() - date.getDay())` is day arithmetic
`days - getDay(days)`, and the key is `toISOString().split('T')[0]` of the
result. `none` models an unparseable date (on which the source would throw
from `toISOString`; no stored date is of that shape). -/
def weekKeyOf (dateStr : String) : Option String :=
  (epochDaysOfDateString dateStr).map (fun days =>
    formatEpochDay (days - dayOfWeekJS days))

/-- One iteration of the `weeklyData` `forEach`. -/
def weeklyStep (acc : List (String × ℚ)) (e : TimeEntry) : List (String × ℚ) :=
  match weekKeyOf e.date with
  | none => acc
  | some wk => updAssoc wk 0 (· + effQ e / 3600) acc

/-- The `weeklyMap` accumulation object: week-start `"YYYY-MM-DD"` key to
summed hours. -/
def weeklyMap (entries : List TimeEntry) : List (String × ℚ) :=
  entries.foldl weeklyStep []

/-- Month/day pair of a week key. The call `toLocaleDateString` with the
short-month and numeric-day options renders only the month and the day — the
year is discarded — and re-parsing that label with `new Date` for the sort
comparator therefore orders buckets by (month, day) alone. The label is
modelled by the pair itself. -/
def monthDayOf (wk : String) : Nat × Nat :=
  match parseISOChars wk.data with
  | some c => (c.2.1.toNat, c.2.2.toNat)
  | none => (0, 0)

/-- Model of `weeklyData`: label each bucket with its (month, day),
stable-sort by the `new Date` value of the label — that is, by (month, day)
with the year lost — and keep `slice(-8)`, the last 8 items of the sorted
array. -/
def weeklyData (entries : List TimeEntry) : List ((Nat × Nat) × ℚ) :=
  let labeled := (weeklyMap entries).map (fun p => (monthDayOf p.1, p.2))
  let sorted := stableSort (fun a b =>
    decide (a.1.1 < b.1.1) || (decide (a.1.1 = b.1.1) && decide (a.1.2 ≤ b.1.2))) labeled
  sorted.drop (sorted.length - 8)

/-- Model of `totalHours` of the charts view: reduce over all entries, divide by 3600. -/
def totalHoursCharts (entries : List TimeEntry) : ℚ :=
  ((entries.foldl (fun total e => total + effectiveDuration e) 0 : Int) : ℚ) / 3600

/-! ## Concrete sample data used by witnesses and counterexamples -/

/-- A sample project (one of the default projects of `page.tsx`). -/
def sampleProject : Project :=
  { id := "1", name := "Software Engineering", color := "#3B82F6"
    createdAt := "2024-01-01T00:00:00.000Z" }

/-- A committed entry whose `editedDuration` is present and equal to `0`. -/
def entryZeroEdit : TimeEntry :=
  { id := "e1", projectId := "1", projectName := "Software Engineering"
    startTime := 0, endTime := some 100000, duration := 100
    date := "2024-01-01", isRunning := false, editedDuration := some (some 0) }

/-- A committed entry whose `projectId` dangles (no live project has id 1). -/
def entryDangling : TimeEntry :=
  { id := "e2", projectId := "1", projectName := "Old"
    startTime := 0, endTime := some 90000, duration := 90
    date := "2024-01-02", isRunning := false, editedDuration := none }

/-- A state whose project list is empty while an entry still references
project id 1. -/
def danglingState : AppState :=
  { projects := [], timeEntries := [entryDangling], currentEntry := none }

/-- A state holding the sample project and no entries. -/
def baseState : AppState :=
  { projects := [sampleProject], timeEntries := [], currentEntry := none }

/-- A currently running staged entry. -/
def runningEntry : TimeEntry :=
  { id := "1000", projectId := "1", projectName := "Software Engineering"
    startTime := 1000, endTime := none, duration := 0
    date := "1970-01-01", isRunning := true, editedDuration := none }

/-- A state with the sample project and a running session. -/
def runningState : AppState :=
  { projects := [sampleProject], timeEntries := [], currentEntry := some runningEntry }

/-- A committed mid-year entry used to exercise the filters. -/
def entryForFilter : TimeEntry :=
  { id := "e4", projectId := "p1", projectName := "A"
    startTime := 0, endTime := some 1000, duration := 1
    date := "2024-06-15", isRunning := false, editedDuration := none }

/-- A state with one project and two entries, one referencing it. -/
def twoEntryState : AppState :=
  { projects := [sampleProject]
    timeEntries := [entryDangling, { entryDangling with id := "e3", projectId := "2" }]
    currentEntry := none }

/-! ## Helper lemmas -/

/-- Folding `+ effectiveDuration` is summation. -/
theorem foldl_add_effectiveDuration (l : List TimeEntry) (i : Int) :
    l.foldl (fun total e => total + effectiveDuration e) i
      = i + (l.map effectiveDuration).sum := by
  induction l generalizing i with
  | nil => simp
  | cons a as ih => simp [ih, add_assoc]

/-- Casting an integer duration sum to `ℚ` is the sum of `effQ`. -/
theorem cast_sum_effectiveDuration (l : List TimeEntry) :
    (((l.map effectiveDuration).sum : Int) : ℚ) = (l.map effQ).sum := by
  induction l with
  | nil => simp
  | cons a as ih => simp [effQ, ih]

/-- Both `totalHours` computations are the effective-duration sum over 3600. -/
theorem totalHoursHistory_eq_sum (l : List TimeEntry) :
    totalHoursHistory l = ((l.map effQ).sum) / 3600 := by
  simp only [totalHoursHistory]
  rw [foldl_add_effectiveDuration, zero_add, cast_sum_effectiveDuration]

/-- Charts total agrees with the same sum. -/
theorem totalHoursCharts_eq_sum (l : List TimeEntry) :
    totalHoursCharts l = ((l.map effQ).sum) / 3600 := by
  simp only [totalHoursCharts]
  rw [foldl_add_effectiveDuration, zero_add, cast_sum_effectiveDuration]


/-- Stable insertion permutes the consed list. -/
theorem stableInsert_perm {α : Type} (le : α → α → Bool) (x : α) (l : List α) :
    (stableInsert le x l).Perm (x :: l) := by
  induction l with
  | nil => exact List.Perm.refl _
  | cons y ys ih =>
    rw [stableInsert]
    by_cases h : le x y = true
    · rw [if_pos h]
    · rw [if_neg h]
      exact ((ih.cons y).trans (List.Perm.swap x y ys))

/-- Stable sorting permutes the list. -/
theorem stableSort_perm {α : Type} (le : α → α → Bool) (l : List α) :
    (stableSort le l).Perm l := by
  induction l with
  | nil => exact List.Perm.refl _
  | cons x xs ih =>
    rw [stableSort]
    exact (stableInsert_perm le x (stableSort le xs)).trans (ih.cons x)

/-- Lookup after an object-key update. -/
theorem lookupA_updAssoc {β : Type} (k q : String) (dflt : β) (f : β → β)
    (acc : List (String × β)) :
    lookupA k (updAssoc q dflt f acc) =
      if q = k then some (f ((lookupA k acc).getD dflt)) else lookupA k acc := by
  induction acc with
  | nil =>
    by_cases h : q = k <;> simp [updAssoc, lookupA, h]
  | cons hd tl ih =>
    obtain ⟨k', v⟩ := hd
    by_cases h1 : k' = q
    · subst h1
      by_cases h2 : k' = k <;> simp [updAssoc, lookupA, h2, ih]
    · by_cases h2 : k' = k
      · subst h2
        simp [updAssoc, lookupA, h1, Ne.symm h1, ih]
      · simp [updAssoc, lookupA, h1, h2, ih]

/-- Projection of a bucket after an object-accumulating fold: the value at
key `k` is the accumulated start plus the sum of `val` over the entries whose
key is `k`, provided the update adds `val` on top of the projection and the
freshly installed record projects to zero. -/
theorem lookupA_foldl_bucket {β M : Type} [AddCommMonoid M]
    (key : TimeEntry → Option String) (dflt : TimeEntry → β) (upd : TimeEntry → β → β)
    (proj : β → M) (val : TimeEntry → M)
    (hupd : ∀ e r, proj (upd e r) = proj r + val e)
    (hdflt : ∀ e, proj (dflt e) = 0)
    (k : String) :
    ∀ (l : List TimeEntry) (acc : List (String × β)),
      Option.map proj (lookupA k (l.foldl (fun a e =>
          match key e with
          | none => a
          | some kk => updAssoc kk (dflt e) (upd e) a) acc)) =
        if (l.filter (fun e => key e == some k)).isEmpty
        then Option.map proj (lookupA k acc)
        else some (((Option.map proj (lookupA k acc)).getD 0)
                    + ((l.filter (fun e => key e == some k)).map val).sum) := by
  intro l
  induction l with
  | nil => intro acc; simp
  | cons e rest ih =>
    intro acc
    rw [List.foldl_cons, List.filter_cons]
    cases hke : key e with
    | none =>
      simp only [hke]
      simpa using ih acc
    | some kk =>
      simp only [hke]
      by_cases hkk : kk = k
      · subst hkk
        have hproj : proj ((lookupA kk acc).getD (dflt e))
            = (Option.map proj (lookupA kk acc)).getD 0 := by
          cases lookupA kk acc <;> simp [hdflt]
        have hacc : Option.map proj (lookupA kk (updAssoc kk (dflt e) (upd e) acc))
            = some ((Option.map proj (lookupA kk acc)).getD 0 + val e) := by
          rw [lookupA_updAssoc, if_pos rfl]
          simp [hupd, hproj]
        rw [ih (updAssoc kk (dflt e) (upd e) acc), hacc]
        by_cases hrest : (rest.filter (fun e => key e == some kk)).isEmpty = true
        · rw [if_pos hrest, List.isEmpty_iff.mp hrest]
          simp
        · rw [if_neg hrest]
          simp [add_assoc]
      · have hne : (some kk == some k) = false := by simp [hkk]
        rw [hne]
        simp only [Bool.false_eq_true, if_neg, ite_false]
        have hacc : lookupA k (updAssoc kk (dflt e) (upd e) acc) = lookupA k acc := by
          rw [lookupA_updAssoc, if_neg hkk]
        rw [ih (updAssoc kk (dflt e) (upd e) acc), hacc]

/-- Distributing a common divisor out of a mapped sum. -/
theorem sum_map_div (l : List TimeEntry) (f : TimeEntry → ℚ) (b : ℚ) :
    (l.map (fun e => f e / b)).sum = (l.map f).sum / b := by
  induction l with
  | nil => simp
  | cons a as ih => simp [ih, add_div]

/-- The `dailyData` bucket of a date holds the effective-duration sum (in
hours) of the entries on that date. -/
theorem dailyMap_hours (entries : List TimeEntry) (d : String) :
    Option.map DayRec.hours (lookupA d (dailyMap entries)) =
      if (entries.filter (fun e => e.date == d)).isEmpty then none
      else some (((entries.filter (fun e => e.date == d)).map effQ).sum / 3600) := by
  have hdef : dailyMap entries = entries.foldl (fun a e =>
      match (fun e : TimeEntry => some e.date) e with
      | none => a
      | some kk => updAssoc kk
          { date := e.date, hours := 0, perProject := [] }
          (fun r => { r with
            hours := r.hours + effQ e / 3600
            perProject := updAssoc e.projectName 0 (· + effQ e / 3600) r.perProject }) a) [] := rfl
  have h := lookupA_foldl_bucket (fun e : TimeEntry => some e.date)
      (fun e => { date := e.date, hours := 0, perProject := [] })
      (fun e r => { r with
        hours := r.hours + effQ e / 3600
        perProject := updAssoc e.projectName 0 (· + effQ e / 3600) r.perProject })
      DayRec.hours (fun e => effQ e / 3600)
      (fun _ _ => rfl) (fun _ => rfl) d entries []
  rw [hdef, h]
  simp [lookupA, sum_map_div]

/-- The `projectData` bucket of a project name holds the effective-duration
sum (in hours) of the entries carrying that name. -/
theorem projectMap_hours (projects : List Project) (entries : List TimeEntry) (name : String) :
    Option.map ProjRec.hours (lookupA name (projectMap projects entries)) =
      if (entries.filter (fun e => e.projectName == name)).isEmpty then none
      else some (((entries.filter (fun e => e.projectName == name)).map effQ).sum / 3600) := by
  have hdef : projectMap projects entries = entries.foldl (fun a e =>
      match (fun e : TimeEntry => some e.projectName) e with
      | none => a
      | some kk => updAssoc kk
          { name := e.projectName
            hours := 0
            color := (match projects.find? (fun p => p.id == e.projectId) with
              | some p => if p.color = "" then "#6B7280" else p.color
              | none => "#6B7280")
            entries := 0 }
          (fun r => { r with hours := r.hours + effQ e / 3600, entries := r.entries + 1 }) a) [] := rfl
  have h := lookupA_foldl_bucket (fun e : TimeEntry => some e.projectName)
      (fun e => { name := e.projectName
                  hours := 0
                  color := (match projects.find? (fun p => p.id == e.projectId) with
                    | some p => if p.color = "" then "#6B7280" else p.color
                    | none => "#6B7280")
                  entries := 0 })
      (fun e r => { r with hours := r.hours + effQ e / 3600, entries := r.entries + 1 })
      ProjRec.hours (fun e => effQ e / 3600)
      (fun _ _ => rfl) (fun _ => rfl) name entries []
  rw [hdef, h]
  simp [lookupA, sum_map_div]

/-- The `weeklyData` bucket of a week key holds the effective-duration sum
(in hours) of the entries falling in that week. -/
theorem weeklyMap_lookup (entries : List TimeEntry) (wk : String) :
    lookupA wk (weeklyMap entries) =
      if (entries.filter (fun e => weekKeyOf e.date == some wk)).isEmpty then none
      else some (((entries.filter (fun e => weekKeyOf e.date == some wk)).map effQ).sum / 3600) := by
  have hdef : weeklyMap entries = entries.foldl (fun a e =>
      match weekKeyOf e.date with
      | none => a
      | some kk => updAssoc kk (0 : ℚ) (fun q => q + effQ e / 3600) a) [] := rfl
  have h := lookupA_foldl_bucket (fun e : TimeEntry => weekKeyOf e.date)
      (fun _ => (0 : ℚ)) (fun e q => q + effQ e / 3600)
      (fun q => q) (fun e => effQ e / 3600)
      (fun _ _ => rfl) (fun _ => rfl) wk entries []
  have hmap : ∀ o : Option ℚ, Option.map (fun q => q) o = o := by
    intro o; cases o <;> rfl
  rw [hdef]
  rw [hmap] at h
  rw [h]
  simp [lookupA, sum_map_div]

/-! ## Claim theorems -/

/-- C1 counterexample: an entry whose `editedDuration` is present and equal
to 0 contributes its stored `duration` (here 100 s), not 0, to the totals —
JS `||` treats the present 0 as if the override were absent, so the claim
fails in exactly the highlighted `editedDuration = 0` case. -/
theorem c1_counterexample :
    entryZeroEdit.editedDuration = some (some 0) ∧
    entryZeroEdit.duration = 100 ∧
    effectiveDuration entryZeroEdit = 100 ∧
    totalHoursCharts [entryZeroEdit] = 100 / 3600 ∧
    (100 / 3600 : ℚ) ≠ 0 := by
  refine ⟨rfl, rfl, rfl, ?_, by norm_num⟩
  simp [totalHoursCharts, effectiveDuration, entryZeroEdit]

/-- C1 (amended): the duration value read by every aggregation is
`effectiveDuration` — `editedDuration` when present, numeric and nonzero,
else `duration` — and each aggregation equals the sum of that value over its
matching subset: the filtered history total, the charts total, and the
per-day, per-project and per-week buckets (stated as lookups into the
accumulation objects the chart series are built from). -/
theorem c1_amended_aggregations (projects : List Project) (entries : List TimeEntry)
    (p dFrom dTo d name wk : String) :
    totalHoursHistory (filteredEntries entries p dFrom dTo)
        = (((filteredEntries entries p dFrom dTo).map effQ).sum) / 3600 ∧
    totalHoursCharts entries = ((entries.map effQ).sum) / 3600 ∧
    Option.map DayRec.hours (lookupA d (dailyMap entries))
        = (if (entries.filter (fun e => e.date == d)).isEmpty then none
           else some (((entries.filter (fun e => e.date == d)).map effQ).sum / 3600)) ∧
    Option.map ProjRec.hours (lookupA name (projectMap projects entries))
        = (if (entries.filter (fun e => e.projectName == name)).isEmpty then none
           else some (((entries.filter (fun e => e.projectName == name)).map effQ).sum / 3600)) ∧
    lookupA wk (weeklyMap entries)
        = (if (entries.filter (fun e => weekKeyOf e.date == some wk)).isEmpty then none
           else some (((entries.filter (fun e => weekKeyOf e.date == some wk)).map effQ).sum / 3600)) :=
  ⟨totalHoursHistory_eq_sum _, totalHoursCharts_eq_sum _, dailyMap_hours _ _,
   projectMap_hours _ _ _, weeklyMap_lookup _ _⟩

/-- C2: from any state, `start` on an existing project followed by `stop`
and `save` appends exactly one entry to the durable store and returns the
session to `Idle`. -/
theorem c2_start_stop_save (s : AppState) (t1 t2 : Int) (pid : String)
    (h : (s.projects.find? (fun p => p.id == pid)).isSome = true) :
    (saveEntry (stopTimer t2 (startTimer t1 pid s))).timeEntries.length
        = s.timeEntries.length + 1 ∧
    sessionOf (saveEntry (stopTimer t2 (startTimer t1 pid s))) = Session.Idle := by
  obtain ⟨proj, hfind⟩ := Option.isSome_iff_exists.mp h
  simp [startTimer, hfind, stopTimer, saveEntry, sessionOf]

/-- C2 witness at a concrete state, timer started at 1 s and stopped 90 s
later. -/
theorem c2_start_stop_save_witness :
    ((baseState.projects.find? (fun p => p.id == "1")).isSome = true) ∧
    ((saveEntry (stopTimer 91000 (startTimer 1000 "1" baseState))).timeEntries.length
        = baseState.timeEntries.length + 1 ∧
     sessionOf (saveEntry (stopTimer 91000 (startTimer 1000 "1" baseState))) = Session.Idle) :=
  ⟨by decide, c2_start_stop_save baseState 1000 91000 "1" (by decide)⟩

/-- C3: `stop` on a running session sets `endTime` to the clock reading,
`duration` to the floor of the elapsed milliseconds over 1000 (whole
seconds), clears `isRunning`, and moves the session to `Stopped`. -/
theorem c3_stop_semantics (s : AppState) (e : TimeEntry) (now : Int)
    (hcur : s.currentEntry = some e) (hrun : e.isRunning = true) :
    (stopTimer now s).currentEntry = some { e with
        endTime := some now
        duration := Int.fdiv (now - e.startTime) 1000
        isRunning := false } ∧
    sessionOf (stopTimer now s) = Session.Stopped := by
  simp [stopTimer, hcur, sessionOf]

/-- C3 witness: stopping the concrete running session 90 s after its start
yields duration 90 and a `Stopped` session. -/
theorem c3_stop_semantics_witness :
    (runningState.currentEntry = some runningEntry) ∧
    (runningEntry.isRunning = true) ∧
    ((stopTimer 91000 runningState).currentEntry = some { runningEntry with
        endTime := some 91000
        duration := Int.fdiv (91000 - runningEntry.startTime) 1000
        isRunning := false } ∧
     sessionOf (stopTimer 91000 runningState) = Session.Stopped) :=
  ⟨rfl, rfl, c3_stop_semantics runningState runningEntry 91000 rfl rfl⟩

/-- C8: deleting a project removes exactly the project records with that id
and leaves the durable entry store and the staged session untouched. -/
theorem c8_delete_project_frame (s : AppState) (id : String) :
    (deleteProject id s).timeEntries = s.timeEntries ∧
    (deleteProject id s).currentEntry = s.currentEntry ∧
    ∀ p : Project, p ∈ (deleteProject id s).projects ↔ p ∈ s.projects ∧ p.id ≠ id := by
  refine ⟨rfl, rfl, fun p => ?_⟩
  simp [deleteProject, List.mem_filter]

/-- C9 counterexample: a non-numeric hours field makes the whole computed
duration NaN (`none`), not the sum with that component replaced by 0
(which would be 300 here) — `parseInt` returns NaN, and NaN propagates. -/
theorem c9_counterexample :
    computeEditedDuration "abc" "5" "0" = none ∧
    computeEditedDuration "abc" "5" "0" ≠ some (0 * 3600 + 5 * 60 + 0) := by
  decide

/-- C9 (amended): when all three fields parse numerically the stored value
is `h*3600 + m*60 + s`; when any field is non-numeric `parseInt` yields NaN
and the whole computed duration is NaN (`none`) — the failed component is
not coerced to zero. -/
theorem c9_amended_nan_propagation (editHours editMinutes editSeconds bad : String)
    (h m s : Int)
    (hh : parseIntJS editHours = some h) (hm : parseIntJS editMinutes = some m)
    (hsec : parseIntJS editSeconds = some s) (hbad : parseIntJS bad = none) :
    computeEditedDuration editHours editMinutes editSeconds = some (h * 3600 + m * 60 + s) ∧
    computeEditedDuration bad editMinutes editSeconds = none ∧
    computeEditedDuration editHours bad editSeconds = none ∧
    computeEditedDuration editHours editMinutes bad = none := by
  simp [computeEditedDuration, hh, hm, hsec, hbad]

/-- C9 witness at concrete field contents. -/
theorem c9_amended_nan_propagation_witness :
    (parseIntJS "1" = some 1 ∧ parseIntJS "2" = some 2 ∧ parseIntJS "3" = some 3 ∧
     parseIntJS "abc" = none) ∧
    (computeEditedDuration "1" "2" "3" = some (1 * 3600 + 2 * 60 + 3) ∧
     computeEditedDuration "abc" "2" "3" = none ∧
     computeEditedDuration "1" "abc" "3" = none ∧
     computeEditedDuration "1" "2" "abc" = none) :=
  ⟨⟨by decide, by decide, by decide, by decide⟩,
   c9_amended_nan_propagation "1" "2" "3" "abc" 1 2 3
     (by decide) (by decide) (by decide) (by decide)⟩

/-- C4: with an active project filter and both date bounds set, membership in
the filtered list is exactly membership in the source with the matching
project id and a date inside the inclusive range — simultaneously the
characterization of each individual filter and of their intersection. -/
theorem c4_filter_characterization (entries : List TimeEntry) (p dFrom dTo : String)
    (e : TimeEntry) (hp : p ≠ "all") (hf : dFrom ≠ "") (ht : dTo ≠ "") :
    e ∈ filteredEntries entries p dFrom dTo ↔
      e ∈ entries ∧ e.projectId = p ∧
      strLe dFrom e.date = true ∧ strLe e.date dTo = true := by
  simp only [filteredEntries, if_pos hp, if_pos hf, if_pos ht]
  rw [(stableSort_perm _ _).mem_iff]
  simp only [List.mem_filter, and_assoc, beq_iff_eq]

/-- C4 witness at a concrete singleton list and concrete filters. -/
theorem c4_filter_characterization_witness :
    ("p1" ≠ "all" ∧ "2024-01-01" ≠ "" ∧ "2024-12-31" ≠ "") ∧
    (entryForFilter ∈ filteredEntries [entryForFilter] "p1" "2024-01-01" "2024-12-31" ↔
      entryForFilter ∈ [entryForFilter] ∧ entryForFilter.projectId = "p1" ∧
      strLe "2024-01-01" entryForFilter.date = true ∧
      strLe entryForFilter.date "2024-12-31" = true) :=
  ⟨⟨by decide, by decide, by decide⟩,
   c4_filter_characterization [entryForFilter] "p1" "2024-01-01" "2024-12-31" entryForFilter
     (by decide) (by decide) (by decide)⟩

/-- Concatenating all `size`-sized chunks of a list rebuilds the list. -/
theorem flatten_chunks {α : Type} (size : Nat) (hs : 0 < size) :
    ∀ (n : Nat) (l : List α), l.length ≤ n →
      ((List.range ((l.length + size - 1) / size)).map
        (fun k => (l.drop (k * size)).take size)).flatten = l := by
  intro n
  induction n with
  | zero =>
    intro l hl
    have hnil : l = [] := List.eq_nil_of_length_eq_zero (Nat.le_zero.mp hl)
    subst hnil
    have h0 : (([] : List α).length + size - 1) / size = 0 :=
      Nat.div_eq_of_lt (by simp only [List.length_nil]; omega)
    rw [h0]
    rfl
  | succ n ih =>
    intro l hl
    cases l with
    | nil =>
      have h0 : (([] : List α).length + size - 1) / size = 0 :=
        Nat.div_eq_of_lt (by simp only [List.length_nil]; omega)
      rw [h0]
      rfl
    | cons a as =>
      simp only [List.length_cons] at hl
      have hpages : ((a :: as).length + size - 1) / size = as.length / size + 1 := by
        have h1 : (a :: as).length + size - 1 = as.length + size := by
          simp only [List.length_cons]
          omega
        rw [h1, Nat.add_div_right _ hs]
      have hcount : as.length / size = (((a :: as).drop size).length + size - 1) / size := by
        have h2 : ((a :: as).drop size).length = (a :: as).length - size := List.length_drop _ _
        rcases Nat.le_total size (as.length + 1) with hc | hc
        · rw [h2]
          congr 1
          simp only [List.length_cons]
          omega
        · rw [h2]
          simp only [List.length_cons]
          rw [Nat.div_eq_of_lt (by omega), Nat.div_eq_of_lt (by omega)]
      have hih := ih ((a :: as).drop size) (by
        rw [List.length_drop]
        simp only [List.length_cons]
        omega)
      rw [hpages, List.range_succ_eq_map, List.map_cons, List.map_map, List.flatten_cons]
      have hfun : ((fun k => ((a :: as).drop (k * size)).take size) ∘ Nat.succ)
          = fun k => (((a :: as).drop size).drop (k * size)).take size := by
        funext k
        simp only [Function.comp]
        rw [List.drop_drop]
        have h3 : Nat.succ k * size = size + k * size := by
          rw [Nat.succ_mul, Nat.add_comm]
        rw [h3]
      rw [hfun, hcount, hih]
      simp only [Nat.zero_mul, List.drop_zero]
      exact List.take_append_drop size (a :: as)

/-- C5: the pages of size 10 partition the filtered list: concatenating the
slices of pages 1 through `totalPages` rebuilds the list exactly, and the
page count is the ceiling of the length over 10. -/
theorem c5_pagination_partition (l : List TimeEntry) :
    ((List.range (totalPages l)).map (fun k => paginatedEntries (k + 1) l)).flatten = l ∧
    totalPages l = (l.length + 9) / 10 := by
  refine ⟨?_, rfl⟩
  have h := flatten_chunks 10 (by norm_num) l.length l (le_refl _)
  simpa [paginatedEntries, totalPages] using h

/-- Entry-wise effect of the name propagation `map` of `updateProject`. -/
theorem forall₂_projectName_update (entries : List TimeEntry) (id name : String) :
    List.Forall₂ (fun e eNew =>
        (e.projectId = id → eNew = { e with projectName := name }) ∧
        (e.projectId ≠ id → eNew = e))
      entries
      (entries.map (fun e =>
        if e.projectId == id then { e with projectName := name } else e)) := by
  induction entries with
  | nil => exact List.Forall₂.nil
  | cons a as ih =>
    rw [List.map_cons]
    refine List.Forall₂.cons ?_ ih
    by_cases h : a.projectId = id
    · simp [h]
    · simp [h]

/-- C6: updating an existing project rewrites `projectName` on exactly the
durable entries whose `projectId` matches and leaves every field of every
other entry unchanged. -/
theorem c6_update_propagates (s : AppState) (id name color : String)
    (hid : id ∈ s.projects.map Project.id) :
    List.Forall₂ (fun e eNew =>
        (e.projectId = id → eNew = { e with projectName := name }) ∧
        (e.projectId ≠ id → eNew = e))
      s.timeEntries (updateProject id name color s).timeEntries :=
  forall₂_projectName_update s.timeEntries id name

/-- C6 witness at a concrete two-entry state. -/
theorem c6_update_propagates_witness :
    ("1" ∈ twoEntryState.projects.map Project.id) ∧
    List.Forall₂ (fun e eNew =>
        (e.projectId = "1" → eNew = { e with projectName := "New" }) ∧
        (e.projectId ≠ "1" → eNew = e))
      twoEntryState.timeEntries
      (updateProject "1" "New" "#000000" twoEntryState).timeEntries :=
  ⟨by decide, c6_update_propagates twoEntryState "1" "New" "#000000" (by decide)⟩

/-- C7 counterexample: with an empty project list, updating the (absent)
project id 1 is not a no-op — the dangling entry referencing id 1 still has
its `projectName` rewritten, because the entry propagation `map` is applied
unconditionally, with no existence guard. -/
theorem c7_counterexample :
    ("1" ∉ danglingState.projects.map Project.id) ∧
    (updateProject "1" "New" "#000000" danglingState).timeEntries
      ≠ danglingState.timeEntries := by
  decide

/-- C7 (amended): updating a non-existent project id leaves the project list
and the staged session unchanged, but still rewrites `projectName` on every
durable entry whose (dangling) `projectId` equals the id; entries with other
`projectId`s are untouched. -/
theorem c7_amended_nonexistent_id (s : AppState) (id name color : String)
    (hid : id ∉ s.projects.map Project.id) :
    (updateProject id name color s).projects = s.projects ∧
    (updateProject id name color s).currentEntry = s.currentEntry ∧
    List.Forall₂ (fun e eNew =>
        (e.projectId = id → eNew = { e with projectName := name }) ∧
        (e.projectId ≠ id → eNew = e))
      s.timeEntries (updateProject id name color s).timeEntries := by
  refine ⟨?_, rfl, forall₂_projectName_update s.timeEntries id name⟩
  have hfix : ∀ q ∈ s.projects,
      (if q.id == id then { q with name := name, color := color } else q) = q := by
    intro q hq
    have hne : q.id ≠ id := fun hcontra => hid (List.mem_map.mpr ⟨q, hq, hcontra⟩)
    simp [hne]
  calc (updateProject id name color s).projects
      = s.projects.map (fun q =>
          if q.id == id then { q with name := name, color := color } else q) := rfl
    _ = s.projects.map (fun q => q) := List.map_congr_left hfix
    _ = s.projects := by simp

/-- C7 witness at a concrete state and an id absent from its project list. -/
theorem c7_amended_nonexistent_id_witness :
    ("zz" ∉ baseState.projects.map Project.id) ∧
    ((updateProject "zz" "New" "#000000" baseState).projects = baseState.projects ∧
     (updateProject "zz" "New" "#000000" baseState).currentEntry = baseState.currentEntry ∧
     List.Forall₂ (fun e eNew =>
        (e.projectId = "zz" → eNew = { e with projectName := "New" }) ∧
        (e.projectId ≠ "zz" → eNew = e))
      baseState.timeEntries
      (updateProject "zz" "New" "#000000" baseState).timeEntries) :=
  ⟨by decide, c7_amended_nonexistent_id baseState "zz" "New" "#000000" (by decide)⟩

/-- A one-hour entry on the given date. -/
def weekProbeEntry (d : String) : TimeEntry :=
  { id := d, projectId := "1", projectName := "Software Engineering"
    startTime := 0, endTime := some 3600000, duration := 3600
    date := d, isRunning := false, editedDuration := none }

/-- Nine entries, one per Sunday-starting week, spanning the 2023→2024 year
boundary: five weeks of December 2023 and four of January 2024. -/
def yearBoundaryEntries : List TimeEntry :=
  ["2023-12-03", "2023-12-10", "2023-12-17", "2023-12-24", "2023-12-31",
   "2024-01-07", "2024-01-14", "2024-01-21", "2024-01-28"].map weekProbeEntry

/-- Modelled from the spec side for comparison (spec §4.4: "restricted to the
most recent 8 week-buckets"): the chronologically most recent 8 week-bucket
keys, obtained by sorting the full `"YYYY-MM-DD"` keys — which do carry the
year — and keeping the last 8. -/
def specMostRecentWeekKeys (entries : List TimeEntry) : List String :=
  let keys := (weeklyMap entries).map Prod.fst
  let sorted := stableSort strLe keys
  sorted.drop (sorted.length - 8)

/-- C10: on the year-boundary input the nine buckets are built correctly
(every entry lands in its Sunday-starting week), but the reported series is
not the 8 chronologically most recent buckets: the sort key re-parses the
year-less "month day" label, so the Dec 3 2023 bucket (the oldest) is kept
while the Jan 7 2024 bucket is dropped. -/
theorem c10_weekly_series_year_bug :
    (weeklyMap yearBoundaryEntries).map Prod.fst
        = ["2023-12-03", "2023-12-10", "2023-12-17", "2023-12-24", "2023-12-31",
           "2024-01-07", "2024-01-14", "2024-01-21", "2024-01-28"] ∧
    specMostRecentWeekKeys yearBoundaryEntries
        = ["2023-12-10", "2023-12-17", "2023-12-24", "2023-12-31",
           "2024-01-07", "2024-01-14", "2024-01-21", "2024-01-28"] ∧
    (weeklyData yearBoundaryEntries).map Prod.fst
        = [(1, 14), (1, 21), (1, 28), (12, 3), (12, 10), (12, 17), (12, 24), (12, 31)] ∧
    monthDayOf "2024-01-07" = (1, 7) ∧
    (1, 7) ∉ (weeklyData yearBoundaryEntries).map Prod.fst ∧
    monthDayOf "2023-12-03" = (12, 3) ∧
    (12, 3) ∈ (weeklyData yearBoundaryEntries).map Prod.fst := by
  decide

end Timepro
